import Mathlib

/-!
Verification of the multi-source crypto dashboard (consensus merge, fallback
chain, TTL cache, indicator engine, series builder) against its specification.

Numeric values are modelled as rationals (`ℚ`); the Python code computes with
IEEE floats, but every property checked here concerns definedness, ordering,
control flow or exact closed-form values, none of which depend on rounding.
Python `None` is modelled as `Option.none`; a Python exception crossing a
function boundary is modelled with `Except`; functions whose bodies have no
uncaught `raise` path are modelled as total functions.
-/

/- ### Consensus engine: `MarketDataService.get_realtime_data`
   (src/services/market_data_service.py, lines 45-75) -/

/-- Observation returned by one `_get_*` provider method: a dict with the four
fields, each possibly `None`. -/
structure Observation where
  price : Option ℚ
  market_cap : Option ℚ
  volume_24h : Option ℚ
  change_24h : Option ℚ
  deriving DecidableEq

/-- Outcome of one `provider(coin_id)` call inside the `get_realtime_data`
loop: the call may raise (caught by `except Exception: continue`), return
`None` (falsy, skipped by `if data:`), or return an observation dict. -/
inductive ProviderOutcome where
  | raises : ProviderOutcome
  | returnsNone : ProviderOutcome
  | ok : Observation → ProviderOutcome
  deriving DecidableEq

/-- Consensus snapshot built by `get_realtime_data`: each field independently
optional. -/
structure ConsensusSnapshot where
  price : Option ℚ
  market_cap : Option ℚ
  volume_24h : Option ℚ
  change_24h : Option ℚ
  deriving DecidableEq

/-- The observations that survive the provider loop (those neither raising nor
returning `None`), in chain order. -/
def collectObs : List ProviderOutcome → List Observation
  | [] => []
  | .ok d :: rest => d :: collectObs rest
  | _ :: rest => collectObs rest

/-- The four field lists built by the provider loop of `get_realtime_data`:
for each successful provider the loop appends `data.get("price")`,
`data.get("market_cap")`, `data.get("volume_24h")`, `data.get("change_24h")`
(each possibly `None`) to the respective list. -/
def buildLists : List ProviderOutcome →
    List (Option ℚ) × List (Option ℚ) × List (Option ℚ) × List (Option ℚ)
  | [] => ([], [], [], [])
  | o :: rest =>
    let r := buildLists rest
    match o with
    | .ok d => (d.price :: r.1, d.market_cap :: r.2.1,
                d.volume_24h :: r.2.2.1, d.change_24h :: r.2.2.2)
    | _ => r

/-- Median of an already-sorted list, as the spec words it: odd count takes the
middle element, even count averages the two middle elements, empty is absent.
This is the spec-side definition used to compare the code against. -/
def medianOfSorted (s : List ℚ) : Option ℚ :=
  if s.length = 0 then none
  else if s.length % 2 = 1 then s.get? (s.length / 2)
  else
    match s.get? (s.length / 2 - 1), s.get? (s.length / 2) with
    | some a, some b => some ((a + b) / 2)
    | _, _ => none

/-- Python `statistics.median`: sort the data, then pick `data[n//2]` for odd
`n` and the mean of `data[n//2-1]` and `data[n//2]` for even `n`. -/
def pyMedian (l : List ℚ) : Option ℚ :=
  medianOfSorted (l.insertionSort (· ≤ ·))

/-- The nested `safe_median` of `get_realtime_data`: drop `None` entries, then
`statistics.median` if anything is left, else `None`. -/
def safe_median (l : List (Option ℚ)) : Option ℚ :=
  pyMedian (l.filterMap id)

/-- Core of `get_realtime_data` (cache-miss path): run the provider loop,
then take `safe_median` of each of the four field lists. -/
def get_realtime_consensus (outs : List ProviderOutcome) : ConsensusSnapshot :=
  let r := buildLists outs
  { price := safe_median r.1
    market_cap := safe_median r.2.1
    volume_24h := safe_median r.2.2.1
    change_24h := safe_median r.2.2.2 }

/- ### The `app.py` revision of `MarketDataService.get_realtime_data`
   (src/app.py, lines 66-73): a single CoinGecko call whose failure
   propagates, and a mandatory `price_data[coin_id]['usd']` subscript. -/

/-- One entry of the CoinGecko `get_price` response for a coin id. -/
structure PriceEntry where
  usd : Option ℚ
  usd_market_cap : Option ℚ
  usd_24h_vol : Option ℚ
  usd_24h_change : Option ℚ
  deriving DecidableEq

/-- Python exceptions that can cross the boundaries modelled here. -/
inductive PyErr where
  | transport : PyErr
  | httpError : PyErr
  | keyError : PyErr
  | valueError : PyErr
  | indexError : PyErr
  deriving DecidableEq

/-- Snapshot produced by the `app.py` variant: `price` is obtained by
subscripting (`['usd']`), so it is mandatory; the other three use `.get`. -/
structure AppSnapshot where
  price : ℚ
  market_cap : Option ℚ
  volume_24h : Option ℚ
  change_24h : Option ℚ
  deriving DecidableEq

/-- The `app.py` `get_realtime_data`: `self.cg.get_price(...)` may raise
(propagated — there is no try/except), then `price_data[coin_id]` and
`['usd']` raise `KeyError` when absent. -/
def app_get_realtime_data (resp : Except PyErr (List (String × PriceEntry)))
    (coin_id : String) : Except PyErr AppSnapshot :=
  match resp with
  | .error e => .error e
  | .ok price_data =>
    match price_data.lookup coin_id with
    | none => .error .keyError
    | some entry =>
      match entry.usd with
      | none => .error .keyError
      | some p =>
        .ok { price := p
              market_cap := entry.usd_market_cap
              volume_24h := entry.usd_24h_vol
              change_24h := entry.usd_24h_change }

/- ### TTL cache: `CacheService` over `cachetools.TTLCache`
   (src/services/cache_service.py). An entry inserted at time `ins` with
   time-to-live `ttl` is expired at read time `now` iff `¬ (now < ins + ttl)`,
   matching cachetools (`expired = not (timer() < link.expires)` with
   `expires = insert_time + ttl`). Capacity eviction (`maxsize=100`) is not
   modelled: no claim depends on it, and it cannot remove the entry just
   inserted by `set`. -/

/-- One live cache entry: key, value, insertion time. -/
structure CEntry (α : Type) where
  key : String
  val : α
  ins : ℚ
  deriving DecidableEq

/-- `CacheService.set`: `self.cache[key] = value` replaces any previous entry
for the key and records the insertion time. -/
def cacheSet {α : Type} (s : List (CEntry α)) (k : String) (v : α) (now : ℚ) :
    List (CEntry α) :=
  ⟨k, v, now⟩ :: s.filter (fun e => ¬ e.key = k)

/-- `CacheService.get`: `self.cache.get(key)` returns the stored value if the
entry exists and is not yet expired at `now`, else `None`. -/
def cacheGet {α : Type} (ttl : ℚ) (s : List (CEntry α)) (k : String)
    (now : ℚ) : Option α :=
  match s.find? (fun e => e.key = k) with
  | some e => if now < e.ins + ttl then some e.val else none
  | none => none

/-- `CacheService.clear_all`: `self.cache.clear()` removes every entry. -/
def cacheClearAll {α : Type} (_s : List (CEntry α)) : List (CEntry α) := []

/- ### Fallback orchestrator: `get_market_data`
   (src/services/services/market_data.py, lines 174-199). For each provider
   in `get_provider_chain()` order and each `attempt in
   range(PROVIDER_RETRY_ATTEMPTS)`: call `provider.fetch(symbol)`; a result
   with a defined price is cached and returned; an unusable result (falsy, or
   `price is None`) just moves to the next attempt; an exception is caught
   and followed by `time.sleep(PROVIDER_BACKOFF_FACTOR * (2 ** attempt))`.
   After the whole chain is exhausted the function executes `return None`. -/

/-- Result dict of a `provider.fetch` call: only `price` (possibly `None`)
steers the control flow; `provider` identifies whose result it is. -/
structure FetchResult where
  price : Option ℚ
  provider : String
  deriving DecidableEq

/-- Outcome of a single `provider.fetch(symbol)` call: it may raise, or
return `None` or a result dict. -/
inductive FetchOutcome where
  | raise : FetchOutcome
  | ret : Option FetchResult → FetchOutcome
  deriving DecidableEq

/-- The `result and result["price"] is not None` test of `get_market_data`. -/
def usableR : Option FetchResult → Bool
  | some r => r.price.isSome
  | none => false

/-- Whether a fetch outcome passes the usability test (an exception never
does: control goes to the `except` branch instead). -/
def usableO : FetchOutcome → Bool
  | .raise => false
  | .ret r => usableR r

/-- Observable events of one `get_market_data` run: a fetch attempt
(provider index, attempt index) or a `time.sleep` of a given duration. -/
inductive Ev where
  | att : ℕ → ℕ → Ev
  | slp : ℚ → Ev
  deriving DecidableEq

/-- Event-test for attempts, used to count how often a provider was tried. -/
def isAtt : Ev → Bool
  | .att _ _ => true
  | .slp _ => false

/-- The inner `for attempt in range(N)` loop of `get_market_data` for one
provider `f` (given as attempt-index ↦ outcome): `n` attempts remain and the
next attempt has index `a`. Returns the accepted result (if any) and the
event trace. A raising attempt is followed by `time.sleep(b * 2 ** a)`; an
attempt returning an unusable result retries immediately. -/
def runAttempts (b : ℚ) (p : ℕ) (f : ℕ → FetchOutcome) :
    ℕ → ℕ → Option FetchResult × List Ev
  | 0, _ => (none, [])
  | n + 1, a =>
    match f a with
    | .raise =>
      let res := runAttempts b p f n (a + 1)
      (res.1, .att p a :: .slp (b * 2 ^ a) :: res.2)
    | .ret r =>
      if usableR r then (r, [.att p a])
      else
        let res := runAttempts b p f n (a + 1)
        (res.1, .att p a :: res.2)

/-- The outer `for provider in get_provider_chain()` loop: providers are
tried in order, each with `N` attempts, and the first usable result ends the
run. `p` is the index of the first provider in the remaining list. -/
def runChain (b : ℚ) (N : ℕ) : List (ℕ → FetchOutcome) → ℕ →
    Option FetchResult × List Ev
  | [], _ => (none, [])
  | f :: fs, p =>
    let ra := runAttempts b p f N 0
    match ra.1 with
    | some r => (some r, ra.2)
    | none =>
      let res := runChain b N fs (p + 1)
      (res.1, ra.2 ++ res.2)

/-- `get_market_data` on a cache miss: walk the chain; when every provider is
exhausted the Python code reaches `return None`, modelled by a `none` result
(the function body has no uncaught raise, so the model is total). The
`timestamp` field added when caching the accepted result is not modelled. -/
def get_market_data_fb (providers : List (ℕ → FetchOutcome)) (N : ℕ)
    (b : ℚ) : Option FetchResult × List Ev :=
  runChain b N providers 0

/- ### Provider adapters (claim C9).
   `CoinLoreProvider.fetch` (src/services/services/market_data.py, lines
   70-88) wraps its whole body in try/except and returns `None` on any
   exception. `MarketDataService._get_coinlore`
   (src/services/market_data_service.py, lines 108-124) has no try/except:
   `requests.get` transport errors and malformed payloads propagate. -/

/-- A row of the CoinLore ticker payload; each field may be missing. -/
structure CoinloreRow where
  price_usd : Option ℚ
  market_cap_usd : Option ℚ
  volume24 : Option ℚ
  percent_change_24h : Option ℚ
  deriving DecidableEq

/-- Outcome of the underlying `requests.get`: a transport-level exception, or
an HTTP response with a status code and a body (`none` body = a payload that
`resp.json()` cannot parse). -/
inductive HttpResult where
  | transportError : HttpResult
  | response : ℕ → Option (List CoinloreRow) → HttpResult
  deriving DecidableEq

/-- Observation built by `CoinLoreProvider.fetch`: `float(data.get(k, 0))`
defaults every missing field to `0`, so the fields are not optional. -/
structure LoreObs where
  price : ℚ
  market_cap : ℚ
  volume_24h : ℚ
  deriving DecidableEq

/-- Body of the `try` block of `CoinLoreProvider.fetch`:
`raise_for_status()` raises for status ≥ 400, `resp.json()` raises on a
malformed body, and `resp.json()[0] if resp.json() else {}` turns an empty
list into an empty dict whose fields default to `0`. -/
def coinLoreTry (http : HttpResult) : Except PyErr LoreObs :=
  match http with
  | .transportError => .error .transport
  | .response st body =>
    if 400 ≤ st then .error .httpError
    else
      match body with
      | none => .error .valueError
      | some rows =>
        let data := rows.head?.getD ⟨none, none, none, none⟩
        .ok { price := data.price_usd.getD 0
              market_cap := data.market_cap_usd.getD 0
              volume_24h := data.volume24.getD 0 }

/-- `CoinLoreProvider.fetch`: the `except Exception` clause maps every
exception of the body to `None`, so nothing raises across the boundary. -/
def coinLoreFetch (http : HttpResult) : Option LoreObs :=
  match coinLoreTry http with
  | .ok o => some o
  | .error _ => none

/-- The CoinLore id map of `MarketDataService._get_coinlore`. -/
def coinloreIdMap (coin_id : String) : Option String :=
  if coin_id = "bitcoin" then some "90"
  else if coin_id = "ethereum" then some "80"
  else if coin_id = "chainlink" then some "518"
  else none

/-- `MarketDataService._get_coinlore`: unmapped ids and non-200 statuses
return `None`, but there is no try/except, so a transport error, a malformed
body (`resp.json()` raises) or an empty payload (`[0]` raises `IndexError`)
propagates to the caller. `float(x) if x else None` keeps fields optional. -/
def get_coinlore_ms (coin_id : String) (http : HttpResult) :
    Except PyErr (Option Observation) :=
  match coinloreIdMap coin_id with
  | none => .ok none
  | some _ =>
    match http with
    | .transportError => .error .transport
    | .response st body =>
      if ¬ st = 200 then .ok none
      else
        match body with
        | none => .error .valueError
        | some [] => .error .indexError
        | some (row :: _) =>
          .ok (some { price := row.price_usd
                      market_cap := row.market_cap_usd
                      volume_24h := row.volume24
                      change_24h := row.percent_change_24h })

/- ### Indicator engine: `SignalService.calculate_signals`
   (src/services/signal_service.py). Every pandas series over the close
   column is modelled index-wise as a list of optional rationals aligned with
   `closes` (entry `i` ↦ the value at the i-th timestamp, `none` = NaN).
   `np.sqrt` (inside `rolling(...).std()`) is abstracted as a parameter
   `sq : ℚ → ℚ`; no claim depends on its values, only on definedness. -/

/-- A pandas-like series over the index of `closes`: position `i` holds the
value at the i-th row, with `none` for NaN. -/
def seriesOf (n : ℕ) (f : ℕ → Option ℚ) : List (Option ℚ) :=
  (List.range n).map f

/-- `df['close'].diff()`: NaN at position 0, `close[i] - close[i-1]` after. -/
def deltaAt (closes : List ℚ) (i : ℕ) : Option ℚ :=
  if i = 0 then none
  else
    match closes.get? (i - 1), closes.get? i with
    | some a, some b => some (b - a)
    | _, _ => none

/-- `delta.where(delta > 0, 0)`: keeps positive changes; everything else —
including the leading NaN, for which `delta > 0` is False — becomes `0`. -/
def gainAt (closes : List ℚ) (i : ℕ) : ℚ :=
  match deltaAt closes i with
  | some d => if 0 < d then d else 0
  | none => 0

/-- `-delta.where(delta < 0, 0)`: magnitudes of negative changes; everything
else (again including the leading NaN) becomes `0`. -/
def lossAt (closes : List ℚ) (i : ℕ) : ℚ :=
  match deltaAt closes i with
  | some d => if d < 0 then -d else 0
  | none => 0

/-- `rolling(window=w, min_periods=w).mean()` over a NaN-free value stream:
defined once the trailing window of length `w` fits, i.e. at `i ≥ w - 1`. -/
def rollAvg (w : ℕ) (f : ℕ → ℚ) (i : ℕ) : Option ℚ :=
  if w ≤ i + 1 then
    some ((((List.range w).map (fun k => f (i + 1 - w + k))).sum) / (w : ℚ))
  else none

/-- `avg_gain = gain.rolling(window=14, min_periods=14).mean()`. -/
def avgGainAt (closes : List ℚ) (i : ℕ) : Option ℚ :=
  rollAvg 14 (gainAt closes) i

/-- `avg_loss = loss.rolling(window=14, min_periods=14).mean()`. -/
def avgLossAt (closes : List ℚ) (i : ℕ) : Option ℚ :=
  rollAvg 14 (lossAt closes) i

/-- `rs = avg_gain / avg_loss; rsi = 100 - 100 / (1 + rs)` under float
semantics with both averages non-negative: a positive `avg_loss` gives the
finite formula; `avg_loss = 0` with positive `avg_gain` gives `rs = +inf`
and hence `rsi = 100`; `0 / 0` gives NaN. No branch raises. -/
def rsiAt (closes : List ℚ) (i : ℕ) : Option ℚ :=
  match avgGainAt closes i, avgLossAt closes i with
  | some ag, some al =>
    if al = 0 then (if ag = 0 then none else some 100)
    else some (100 - 100 / (1 + ag / al))
  | _, _ => none

/-- One step of `ewm(span, adjust=False).mean()`: state is (current mean,
count of valid observations); a NaN input leaves the state unchanged, a
valid input either seeds the mean or applies
`y ← (1 - α) * y + α * x`. -/
def emaStep (al : ℚ) (s : Option ℚ × ℕ) (xo : Option ℚ) : Option ℚ × ℕ :=
  match xo with
  | none => s
  | some x =>
    match s.1 with
    | none => (some x, s.2 + 1)
    | some y => (some ((1 - al) * y + al * x), s.2 + 1)

/-- EWM state after consuming inputs `0..i`. -/
def emaState (al : ℚ) (x : ℕ → Option ℚ) : ℕ → Option ℚ × ℕ
  | 0 => emaStep al (none, 0) (x 0)
  | i + 1 => emaStep al (emaState al x i) (x (i + 1))

/-- `ewm(span, adjust=False, min_periods=minp).mean()` at position `i`, with
`al = 2 / (span + 1)`: the running mean once `minp` valid observations have
been consumed, NaN before. (The inputs arising here — the close column and
the MACD line — have only leading NaNs, for which this recursion coincides
with pandas.) -/
def ewmAt (al : ℚ) (minp : ℕ) (x : ℕ → Option ℚ) (i : ℕ) : Option ℚ :=
  let s := emaState al x i
  if minp ≤ s.2 then s.1 else none

/-- `ema12 = df['close'].ewm(span=12, adjust=False, min_periods=12).mean()`. -/
def ema12At (closes : List ℚ) (i : ℕ) : Option ℚ :=
  ewmAt (2 / 13) 12 (fun j => closes.get? j) i

/-- `ema26 = df['close'].ewm(span=26, adjust=False, min_periods=26).mean()`. -/
def ema26At (closes : List ℚ) (i : ℕ) : Option ℚ :=
  ewmAt (2 / 27) 26 (fun j => closes.get? j) i

/-- `macd = ema12 - ema26` (NaN wherever either side is NaN). -/
def macdAt (closes : List ℚ) (i : ℕ) : Option ℚ :=
  match ema12At closes i, ema26At closes i with
  | some a, some b => some (a - b)
  | _, _ => none

/-- `signal_line = macd.ewm(span=9, adjust=False, min_periods=9).mean()`. -/
def signalAt (closes : List ℚ) (i : ℕ) : Option ℚ :=
  ewmAt (2 / 10) 9 (macdAt closes) i

/-- `histogram = macd - signal_line`. -/
def histAt (closes : List ℚ) (i : ℕ) : Option ℚ :=
  match macdAt closes i, signalAt closes i with
  | some a, some b => some (a - b)
  | _, _ => none

/-- `sma20 = df['close'].rolling(window=20, min_periods=20).mean()` (also the
`rolling_mean` of the Bollinger computation). -/
def sma20At (closes : List ℚ) (i : ℕ) : Option ℚ :=
  rollAvg 20 (fun j => closes.getD j 0) i

/-- Sample variance (`ddof=1`) of the trailing 20-window, the quantity under
the square root of `rolling(window=20, min_periods=20).std()`. -/
def var20At (closes : List ℚ) (i : ℕ) : ℚ :=
  let w := (List.range 20).map (fun k => closes.getD (i + 1 - 20 + k) 0)
  let m := w.sum / 20
  ((w.map (fun x => (x - m) ^ 2)).sum) / 19

/-- `rolling_std = df['close'].rolling(window=20, min_periods=20).std()`,
with the square root abstracted as `sq`. -/
def std20At (sq : ℚ → ℚ) (closes : List ℚ) (i : ℕ) : Option ℚ :=
  if 20 ≤ i + 1 then some (sq (var20At closes i)) else none

/-- `upper_band = rolling_mean + rolling_std * 2`. -/
def upperAt (sq : ℚ → ℚ) (closes : List ℚ) (i : ℕ) : Option ℚ :=
  match sma20At closes i, std20At sq closes i with
  | some m, some s => some (m + s * 2)
  | _, _ => none

/-- `lower_band = rolling_mean - rolling_std * 2`. -/
def lowerAt (sq : ℚ → ℚ) (closes : List ℚ) (i : ℕ) : Option ℚ :=
  match sma20At closes i, std20At sq closes i with
  | some m, some s => some (m - s * 2)
  | _, _ => none

/-- The RSI series aligned with the close column. -/
def rsiSeries (closes : List ℚ) : List (Option ℚ) :=
  seriesOf closes.length (rsiAt closes)

/-- The MACD line aligned with the close column. -/
def macdSeries (closes : List ℚ) : List (Option ℚ) :=
  seriesOf closes.length (macdAt closes)

/-- The signal line aligned with the close column. -/
def signalSeries (closes : List ℚ) : List (Option ℚ) :=
  seriesOf closes.length (signalAt closes)

/-- The MACD histogram aligned with the close column. -/
def histSeries (closes : List ℚ) : List (Option ℚ) :=
  seriesOf closes.length (histAt closes)

/-- The SMA(20) series aligned with the close column. -/
def sma20Series (closes : List ℚ) : List (Option ℚ) :=
  seriesOf closes.length (sma20At closes)

/-- The upper Bollinger band aligned with the close column. -/
def upperBandSeries (sq : ℚ → ℚ) (closes : List ℚ) : List (Option ℚ) :=
  seriesOf closes.length (upperAt sq closes)

/-- The lower Bollinger band aligned with the close column. -/
def lowerBandSeries (sq : ℚ → ℚ) (closes : List ℚ) : List (Option ℚ) :=
  seriesOf closes.length (lowerAt sq closes)

/-- `SignalService.calculate_signals(df, signal_group)`: builds the signals
dict in insertion order; `signal_group` is accepted but never used. -/
def calculate_signals (sq : ℚ → ℚ) (closes : List ℚ)
    (_signal_group : Option String) : List (String × List (Option ℚ)) :=
  [("rsi", rsiSeries closes),
   ("macd", macdSeries closes),
   ("signal_line", signalSeries closes),
   ("histogram", histSeries closes),
   ("sma20", sma20Series closes),
   ("upper_band", upperBandSeries sq closes),
   ("lower_band", lowerBandSeries sq closes)]

/-- `ResponseFormatter.format_market_response` applied to one series:
`v.reindex(base_index).dropna().to_dict()` — the signals were computed on
`base_index` itself, so reindexing is the identity and `dropna` keeps
exactly the defined positions as (timestamp-position, value) pairs. -/
def formatSignal (s : List (Option ℚ)) : List (ℕ × ℚ) :=
  s.enum.filterMap (fun p =>
    match p.2 with
    | some v => some (p.1, v)
    | none => none)

/- ### Series builder: `MarketDataService.get_market_data`
   (src/app.py, lines 75-111). Timestamps are UTC milliseconds. -/

/-- One OHLC row (open, high, low, close) of the `get_coin_ohlc_by_id`
frame. -/
structure Bar where
  op : ℚ
  hi : ℚ
  lo : ℚ
  cl : ℚ
  deriving DecidableEq

/-- One row of the joined OHLCV frame. -/
structure Row where
  op : ℚ
  hi : ℚ
  lo : ℚ
  cl : ℚ
  vol : ℚ
  mcap : ℚ
  deriving DecidableEq

/-- `df_ohlc.join(df_volume, how='inner').join(df_market_cap, how='inner')`:
a timestamp survives exactly when it carries an OHLC row, a volume and a
market cap. -/
def innerJoin3 (ohlc : List (ℕ × Bar)) (vol mc : List (ℕ × ℚ)) :
    List (ℕ × Row) :=
  ohlc.filterMap (fun p =>
    match vol.lookup p.1, mc.lookup p.1 with
    | some v, some m =>
      some (p.1, ⟨p.2.op, p.2.hi, p.2.lo, p.2.cl, v, m⟩)
    | _, _ => none)

/-- Milliseconds per UTC calendar day. -/
def msPerDay : ℕ := 86400000

/-- The UTC calendar day of a millisecond timestamp, the grouping key of
`resample('D')`. -/
def dayOf (t : ℕ) : ℕ := t / msPerDay

/-- The per-day aggregation of `resample('D').agg(...)`: open = first,
high = max, low = min, close = last, volume = sum, market_cap = last. The
defaults for an empty group are never used: `.dropna()` removes days with no
rows (their first/last/max/min are NaN), so only nonempty groups appear. -/
def aggDay (g : List (ℕ × Row)) : Row :=
  { op := ((g.head?).map (fun p => p.2.op)).getD 0
    hi := ((g.map (fun p => p.2.hi)).max?).getD 0
    lo := ((g.map (fun p => p.2.lo)).min?).getD 0
    cl := ((g.getLast?).map (fun p => p.2.cl)).getD 0
    vol := (g.map (fun p => p.2.vol)).sum
    mcap := ((g.getLast?).map (fun p => p.2.mcap)).getD 0 }

/-- `df.resample('D').agg({...}).dropna()`: one aggregated row per calendar
day that has at least one underlying row; empty days yield all-NaN rows and
are dropped. The resampled index is the day start (day × ms-per-day). -/
def resampleDaily (rows : List (ℕ × Row)) : List (ℕ × Row) :=
  ((rows.map (fun p => dayOf p.1)).dedup).map (fun d =>
    (d * msPerDay, aggDay (rows.filter (fun p => dayOf p.1 = d))))

/-- `get_market_data` (cache-miss path): inner-join the three sub-series and
resample daily when the requested range is at most 90 days. -/
def get_market_data_df (ohlc : List (ℕ × Bar)) (vol mc : List (ℕ × ℚ))
    (days : ℕ) : List (ℕ × Row) :=
  let df := innerJoin3 ohlc vol mc
  if days ≤ 90 then resampleDaily df else df

/-- Test for provider outcomes that contribute an observation. -/
def isOkOutcome : ProviderOutcome → Bool
  | .ok _ => true
  | _ => false

/-- Specification-side contract for one consensus field: the result is absent
exactly when no values were contributed, and for every sorted rearrangement
of the contributed values it equals the spec's median of that arrangement
(odd count: the middle value; even count: the average of the two middle
values). -/
def FieldSpec (res : Option ℚ) (vs : List ℚ) : Prop :=
  (res = none ↔ vs = []) ∧
  ∀ s : List ℚ, s.Perm vs → s.Sorted (· ≤ ·) → res = medianOfSorted s

/-- Witness provider P1 of the spec's fallback test: always fails (raises). -/
def wP1 : ℕ → FetchOutcome := fun _ => FetchOutcome.raise

/-- Witness provider P2 of the spec's fallback test: fails on its first
attempt, succeeds on its second with a defined price. -/
def wP2 : ℕ → FetchOutcome := fun a =>
  if a = 1 then FetchOutcome.ret (some ⟨some 5, "P2"⟩)
  else FetchOutcome.ret none

/- ## Theorems -/

/-- Claim C8: `set(k,v)` followed immediately by `get(k)` returns `v`; once
`ttl` has elapsed (expiry at `inserted_at + ttl`) the read is a miss, not a
stale hit; and after `clear_all()` every previously set key is a miss. -/
theorem ttl_cache_spec {α : Type} (s : List (CEntry α)) (ttl : ℚ)
    (k : String) (v : α) (t₁ t₂ : ℚ) (httl : 0 < ttl) :
    cacheGet ttl (cacheSet s k v t₁) k t₁ = some v
    ∧ (t₁ + ttl ≤ t₂ → cacheGet ttl (cacheSet s k v t₁) k t₂ = none)
    ∧ (∀ k2 t, cacheGet ttl (cacheClearAll s) k2 t = none) := by
  refine ⟨?_, ?_, ?_⟩
  · simp only [cacheGet, cacheSet]
    rw [List.find?_cons_of_pos _ (by simp)]
    show (if t₁ < t₁ + ttl then some v else none) = some v
    rw [if_pos (by linarith)]
  · intro h
    simp only [cacheGet, cacheSet]
    rw [List.find?_cons_of_pos _ (by simp)]
    show (if t₂ < t₁ + ttl then some v else none) = none
    rw [if_neg (by linarith)]
  · intro k2 t
    simp [cacheGet, cacheClearAll]

/-- Witness for C8 at a concrete instance: ttl 5, insert at time 0, read at
times 0 and 5, clear. -/
theorem ttl_cache_spec_witness :
    (0 : ℚ) < 5
    ∧ cacheGet 5 (cacheSet ([] : List (CEntry ℕ)) "k" 7 0) "k" 0 = some 7
    ∧ cacheGet 5 (cacheSet ([] : List (CEntry ℕ)) "k" 7 0) "k" 5 = none
    ∧ cacheGet 5 (cacheClearAll ([] : List (CEntry ℕ))) "k" 9 = none :=
  ⟨by norm_num,
   (ttl_cache_spec [] 5 "k" 7 0 5 (by norm_num)).1,
   (ttl_cache_spec [] 5 "k" 7 0 5 (by norm_num)).2.1 (by norm_num),
   (ttl_cache_spec [] 5 "k" 7 0 5 (by norm_num)).2.2 "k" 9⟩

/-- Claim C10: `calculate_signals` ignores its `signal_group` argument, and
its result is always exactly the seven series rsi, macd, signal_line,
histogram, sma20, upper_band, lower_band. -/
theorem signals_group_insensitive (sq : ℚ → ℚ) (closes : List ℚ)
    (g1 g2 : Option String) :
    calculate_signals sq closes g1 = calculate_signals sq closes g2
    ∧ (calculate_signals sq closes g1).map Prod.fst =
      ["rsi", "macd", "signal_line", "histogram", "sma20",
       "upper_band", "lower_band"] :=
  ⟨rfl, rfl⟩

/-- Counterexample to claim C2 as stated: the `app.py` revision of
`get_realtime_data` (the one the running application instantiates) calls a
single provider and propagates its failure — a transport error aborts the
request with an exception, and a response without the requested coin raises
`KeyError`; it does not return an all-absent snapshot. -/
theorem realtime_app_variant_raises :
    app_get_realtime_data (.error PyErr.transport) "bitcoin"
      = .error PyErr.transport
    ∧ app_get_realtime_data (.ok []) "bitcoin" = .error PyErr.keyError :=
  ⟨rfl, rfl⟩

/-- Helper: outcomes that are not `ok` leave the four field lists of
`get_realtime_data` unchanged. -/
theorem buildLists_skip (pre post : List ProviderOutcome)
    (x : ProviderOutcome) (hx : isOkOutcome x = false) :
    buildLists (pre ++ x :: post) = buildLists (pre ++ post) := by
  induction pre with
  | nil =>
    cases x with
    | ok d => simp [isOkOutcome] at hx
    | raises => simp [buildLists]
    | returnsNone => simp [buildLists]
  | cons y ys ih =>
    cases y <;> simp [buildLists, ih]

/-- Helper: when no provider succeeds, the four field lists are empty. -/
theorem buildLists_all_fail (outs : List ProviderOutcome)
    (h : ∀ y ∈ outs, isOkOutcome y = false) :
    buildLists outs = ([], [], [], []) := by
  induction outs with
  | nil => rfl
  | cons y ys ih =>
    cases y with
    | ok d => exact absurd (h _ (List.mem_cons_self _ _)) (by simp [isOkOutcome])
    | raises =>
      simp only [buildLists]
      exact ih (fun z hz => h z (List.mem_cons_of_mem _ hz))
    | returnsNone =>
      simp only [buildLists]
      exact ih (fun z hz => h z (List.mem_cons_of_mem _ hz))

/-- Claim C2 (amended): the consensus-mode `get_realtime_data` of
`services/market_data_service.py` never fails — it is a total function of
the provider outcomes; a failing provider contributes nothing (removing it
from the chain leaves the snapshot unchanged, so its failure does not abort
the request); and when every provider fails the result is the all-absent
snapshot, a normal non-error value. The `app.py` revision does not have this
property (see `realtime_app_variant_raises`). -/
theorem realtime_consensus_never_fails (outs pre post : List ProviderOutcome)
    (x : ProviderOutcome)
    (hfail : ∀ y ∈ outs, isOkOutcome y = false)
    (hx : isOkOutcome x = false) :
    get_realtime_consensus outs = ⟨none, none, none, none⟩
    ∧ get_realtime_consensus (pre ++ x :: post)
      = get_realtime_consensus (pre ++ post) := by
  constructor
  · simp [get_realtime_consensus, buildLists_all_fail outs hfail,
      safe_median, pyMedian, medianOfSorted]
  · simp [get_realtime_consensus, buildLists_skip pre post x hx]

/-- Witness for C2's amended claim: two failing providers produce the
all-absent snapshot, and dropping a raising provider changes nothing. -/
theorem realtime_consensus_never_fails_witness :
    get_realtime_consensus [ProviderOutcome.raises,
        ProviderOutcome.returnsNone] = ⟨none, none, none, none⟩
    ∧ get_realtime_consensus [ProviderOutcome.raises]
      = get_realtime_consensus [] :=
  realtime_consensus_never_fails
    [ProviderOutcome.raises, ProviderOutcome.returnsNone] [] []
    ProviderOutcome.raises (by decide) (by decide)

/-- Counterexample to claim C9 as stated: the `_get_coinlore` adapter of
`services/market_data_service.py` has no try/except, so a transport error
and a malformed (unparseable) 200-payload both cross the adapter boundary as
exceptions instead of an absent result. -/
theorem adapter_raises_counterexample :
    get_coinlore_ms "bitcoin" HttpResult.transportError
      = .error PyErr.transport
    ∧ get_coinlore_ms "bitcoin" (HttpResult.response 200 none)
      = .error PyErr.valueError :=
  ⟨rfl, rfl⟩

/-- Claim C9 (amended): the provider classes of
`services/services/market_data.py` never raise across the fetch boundary —
their whole body is wrapped in try/except, so every exception of the body
(transport error, non-success status via `raise_for_status`, malformed
payload) is absorbed and reported as `None`, and a normal body result passes
through; the `_get_*` adapters of `services/market_data_service.py` by
contrast propagate transport errors and malformed payloads. -/
theorem provider_fetch_boundary (http : HttpResult) :
    (∀ e, coinLoreTry http = .error e → coinLoreFetch http = none)
    ∧ (∀ o, coinLoreTry http = .ok o → coinLoreFetch http = some o)
    ∧ get_coinlore_ms "bitcoin" HttpResult.transportError
      = .error PyErr.transport := by
  refine ⟨?_, ?_, rfl⟩
  · intro e h
    simp [coinLoreFetch, h]
  · intro o h
    simp [coinLoreFetch, h]

/-- Witness for C9's amended claim: a transport error is absorbed to `None`
by the provider class, while the `_get_coinlore` adapter propagates it. -/
theorem provider_fetch_boundary_witness :
    coinLoreFetch HttpResult.transportError = none
    ∧ get_coinlore_ms "bitcoin" HttpResult.transportError
      = .error PyErr.transport :=
  ⟨(provider_fetch_boundary HttpResult.transportError).1
      PyErr.transport rfl,
   (provider_fetch_boundary HttpResult.transportError).2.2⟩

/-- Helper: a timestamp key has a lookup hit exactly when it occurs among
the keys. -/
theorem lookup_isSome_iff {β : Type} (t : ℕ) (l : List (ℕ × β)) :
    (l.lookup t).isSome = true ↔ t ∈ l.map Prod.fst := by
  induction l with
  | nil => simp [List.lookup]
  | cons p ps ih =>
    obtain ⟨k, v⟩ := p
    by_cases hk : t = k
    · subst hk
      simp [List.lookup]
    · have hbeq : (t == k) = false := by simpa using hk
      simp [List.lookup, hbeq, ih, hk]

/-- Helper: the joined frame carries exactly the timestamps present in all
three inputs. -/
theorem innerJoin3_mem_iff (ohlc : List (ℕ × Bar)) (vol mc : List (ℕ × ℚ))
    (t : ℕ) :
    t ∈ (innerJoin3 ohlc vol mc).map Prod.fst ↔
      (t ∈ ohlc.map Prod.fst ∧ t ∈ vol.map Prod.fst ∧ t ∈ mc.map Prod.fst) := by
  constructor
  · intro h
    rw [List.mem_map] at h
    obtain ⟨q, hq, rfl⟩ := h
    rw [innerJoin3, List.mem_filterMap] at hq
    obtain ⟨p, hp, hpe⟩ := hq
    cases hv : vol.lookup p.1 with
    | none => rw [hv] at hpe; cases hpe
    | some v0 =>
      cases hm : mc.lookup p.1 with
      | none => rw [hv, hm] at hpe; cases hpe
      | some m0 =>
        rw [hv, hm] at hpe
        obtain rfl := (Option.some.inj hpe).symm
        refine ⟨List.mem_map.mpr ⟨p, hp, rfl⟩, ?_, ?_⟩
        · exact (lookup_isSome_iff _ _).mp (by rw [hv]; rfl)
        · exact (lookup_isSome_iff _ _).mp (by rw [hm]; rfl)
  · rintro ⟨h1, h2, h3⟩
    rw [List.mem_map] at h1
    obtain ⟨p, hp, rfl⟩ := h1
    obtain ⟨v0, hv0⟩ :=
      Option.isSome_iff_exists.mp ((lookup_isSome_iff p.1 vol).mpr h2)
    obtain ⟨m0, hm0⟩ :=
      Option.isSome_iff_exists.mp ((lookup_isSome_iff p.1 mc).mpr h3)
    refine List.mem_map.mpr
      ⟨(p.1, ⟨p.2.op, p.2.hi, p.2.lo, p.2.cl, v0, m0⟩), ?_, rfl⟩
    rw [innerJoin3, List.mem_filterMap]
    exact ⟨p, hp, by rw [hv0, hm0]⟩

/-- Helper: the daily-resampled frame has at most one row per calendar
day. -/
theorem resampleDaily_keys_nodup (rows : List (ℕ × Row)) :
    ((resampleDaily rows).map Prod.fst).Nodup := by
  rw [resampleDaily, List.map_map]
  have hcomp : (Prod.fst ∘ fun d =>
      (d * msPerDay, aggDay (rows.filter (fun p => dayOf p.1 = d))))
      = fun d => d * msPerDay := rfl
  rw [hcomp]
  refine List.Nodup.map ?_ (List.nodup_dedup _)
  intro x y hxy
  exact Nat.eq_of_mul_eq_mul_right (by norm_num [msPerDay]) hxy

/-- Helper: each resampled row aggregates the nonempty group of joined rows
that fall on its calendar day. -/
theorem resampleDaily_mem (rows : List (ℕ × Row)) (dk : ℕ) (r : Row)
    (h : (dk, r) ∈ resampleDaily rows) :
    ¬ rows.filter (fun p => dayOf p.1 = dayOf dk) = []
    ∧ r = aggDay (rows.filter (fun p => dayOf p.1 = dayOf dk)) := by
  rw [resampleDaily, List.mem_map] at h
  obtain ⟨d, hd, he⟩ := h
  obtain ⟨h1, h2⟩ := Prod.mk.inj he
  have hday : dayOf dk = d := by
    rw [← h1]
    unfold dayOf
    exact Nat.mul_div_cancel d (by norm_num [msPerDay])
  constructor
  · rw [hday]
    have hmem := List.mem_dedup.mp hd
    rw [List.mem_map] at hmem
    obtain ⟨p, hp, hpd⟩ := hmem
    intro hempty
    have hin : p ∈ rows.filter (fun q => dayOf q.1 = d) :=
      List.mem_filter.mpr ⟨hp, by simp [hpd]⟩
    rw [hempty] at hin
    cases hin
  · rw [hday, ← h2]

/-- Claim C7: the built OHLCV frame contains exactly the timestamps present
in all three inputs (inner join on exact timestamp equality), and when the
requested range is at most 90 days it is resampled to at most one row per
UTC calendar day, each row aggregating its day's nonempty group with
open = first, high = max, low = min, close = last, volume = sum,
market_cap = last, days with no rows being dropped entirely. -/
theorem series_builder_join_resample (ohlc : List (ℕ × Bar))
    (vol mc : List (ℕ × ℚ)) (days : ℕ) :
    (∀ t, t ∈ (innerJoin3 ohlc vol mc).map Prod.fst ↔
      (t ∈ ohlc.map Prod.fst ∧ t ∈ vol.map Prod.fst ∧ t ∈ mc.map Prod.fst))
    ∧ (days ≤ 90 → get_market_data_df ohlc vol mc days
        = resampleDaily (innerJoin3 ohlc vol mc))
    ∧ (¬ days ≤ 90 → get_market_data_df ohlc vol mc days
        = innerJoin3 ohlc vol mc)
    ∧ ((resampleDaily (innerJoin3 ohlc vol mc)).map Prod.fst).Nodup
    ∧ (∀ dk r, (dk, r) ∈ resampleDaily (innerJoin3 ohlc vol mc) →
        ¬ (innerJoin3 ohlc vol mc).filter
            (fun p => dayOf p.1 = dayOf dk) = []
        ∧ r = aggDay ((innerJoin3 ohlc vol mc).filter
            (fun p => dayOf p.1 = dayOf dk))) := by
  refine ⟨innerJoin3_mem_iff ohlc vol mc, ?_, ?_,
    resampleDaily_keys_nodup _, fun dk r h => resampleDaily_mem _ dk r h⟩
  · intro h90
    show (if days ≤ 90 then resampleDaily (innerJoin3 ohlc vol mc)
      else innerJoin3 ohlc vol mc) = resampleDaily (innerJoin3 ohlc vol mc)
    rw [if_pos h90]
  · intro h90
    show (if days ≤ 90 then resampleDaily (innerJoin3 ohlc vol mc)
      else innerJoin3 ohlc vol mc) = innerJoin3 ohlc vol mc
    rw [if_neg h90]

/-- Witness for C7 at the spec's example: two same-day points with closes
[100, 105] and volumes [5, 7] resample (range 30 ≤ 90) to one row with
open 100, close 105, volume 12. -/
theorem series_builder_join_resample_witness :
    (30 ≤ 90)
    ∧ get_market_data_df
        [(0, ⟨100, 100, 100, 100⟩), (1000, ⟨105, 105, 105, 105⟩)]
        [(0, 5), (1000, 7)] [(0, 1), (1000, 2)] 30
      = [(0, ⟨100, 105, 100, 105, 12, 2⟩)] := by
  refine ⟨by norm_num, ?_⟩
  have hmain := (series_builder_join_resample
    [(0, ⟨100, 100, 100, 100⟩), (1000, ⟨105, 105, 105, 105⟩)]
    [(0, 5), (1000, 7)] [(0, 1), (1000, 2)] 30).2.1 (by norm_num)
  rw [hmain]
  have hjoin : innerJoin3
      [(0, ⟨100, 100, 100, 100⟩), (1000, ⟨105, 105, 105, 105⟩)]
      [(0, 5), (1000, 7)] [(0, 1), (1000, 2)]
      = [(0, ⟨100, 100, 100, 100, 5, 1⟩),
         (1000, ⟨105, 105, 105, 105, 7, 2⟩)] := by
    decide
  rw [hjoin]
  have hdays : ([(0, (⟨100, 100, 100, 100, 5, 1⟩ : Row)),
      (1000, ⟨105, 105, 105, 105, 7, 2⟩)].map (fun p => dayOf p.1))
      = [0, 0] := by decide
  simp only [resampleDaily, hdays]
  have hded : ([0, 0] : List ℕ).dedup = [0] := by decide
  rw [hded]
  simp [aggDay, dayOf, msPerDay, List.filter]
  norm_num

/-- Helper: pointwise description of a pandas-like series. -/
theorem seriesOf_get? (n : ℕ) (f : ℕ → Option ℚ) (i : ℕ) :
    (seriesOf n f).get? i = if i < n then some (f i) else none := by
  by_cases h : i < n
  · rw [if_pos h, seriesOf, List.get?_map, List.get?_range h]
    rfl
  · rw [if_neg h, seriesOf]
    refine List.get?_eq_none.mpr ?_
    simpa using Nat.le_of_not_lt h

/-- Helper: after position `i` the EWM recursion has consumed at most
`i + 1` observations. -/
theorem emaState_count_le (al : ℚ) (x : ℕ → Option ℚ) :
    ∀ i, (emaState al x i).2 ≤ i + 1 := by
  intro i
  induction i with
  | zero =>
    cases h : x 0 with
    | none => simp [emaState, emaStep, h]
    | some v =>
      simp only [emaState, emaStep, h]
      exact le_refl 1
  | succ j ih =>
    have hst : emaState al x (j + 1) = emaStep al (emaState al x j) (x (j + 1)) := rfl
    rw [hst]
    cases h : x (j + 1) with
    | none =>
      simp only [emaStep]
      omega
    | some v =>
      cases h2 : (emaState al x j).1 with
      | none => simp only [emaStep, h, h2]; omega
      | some y => simp only [emaStep, h, h2]; omega

/-- Helper: an EWM series with `min_periods = minp` is undefined while fewer
than `minp` observations exist. -/
theorem ewmAt_warmup_none (al : ℚ) (minp : ℕ) (x : ℕ → Option ℚ) (i : ℕ)
    (h : i + 1 < minp) : ewmAt al minp x i = none := by
  unfold ewmAt
  have hc := emaState_count_le al x i
  rw [if_neg (by omega)]

/-- Helper: the MACD line is undefined before the EMA(26) warm-up. -/
theorem macdAt_warmup_none (closes : List ℚ) (i : ℕ) (h : i < 25) :
    macdAt closes i = none := by
  have h26 : ema26At closes i = none :=
    ewmAt_warmup_none (2 / 27) 26 (fun j => closes.get? j) i (by omega)
  unfold macdAt
  rw [h26]
  cases ema12At closes i <;> rfl

/-- Helper: the RSI is undefined before the 14-period warm-up. -/
theorem rsiAt_warmup_none (closes : List ℚ) (i : ℕ) (h : i < 13) :
    rsiAt closes i = none := by
  have hg : avgGainAt closes i = none := by
    unfold avgGainAt rollAvg
    rw [if_neg (by omega)]
  unfold rsiAt
  rw [hg]

/-- Helper: the SMA(20) is undefined before the 20-period warm-up. -/
theorem sma20At_warmup_none (closes : List ℚ) (i : ℕ) (h : i < 19) :
    sma20At closes i = none := by
  unfold sma20At rollAvg
  rw [if_neg (by omega)]

/-- Helper: the upper Bollinger band is undefined before the 20-period
warm-up. -/
theorem upperAt_warmup_none (sq : ℚ → ℚ) (closes : List ℚ) (i : ℕ)
    (h : i < 19) : upperAt sq closes i = none := by
  unfold upperAt
  rw [sma20At_warmup_none closes i h]

/-- Helper: the lower Bollinger band is undefined before the 20-period
warm-up. -/
theorem lowerAt_warmup_none (sq : ℚ → ℚ) (closes : List ℚ) (i : ℕ)
    (h : i < 19) : lowerAt sq closes i = none := by
  unfold lowerAt
  rw [sma20At_warmup_none closes i h]

/-- Helper: the response formatter emits a pair only for a position where
the series is defined with that value. -/
theorem formatSignal_mem (s : List (Option ℚ)) (i : ℕ) (v : ℚ)
    (h : (i, v) ∈ formatSignal s) : s.get? i = some (some v) := by
  unfold formatSignal at h
  rw [List.mem_filterMap] at h
  obtain ⟨p, hp, hpe⟩ := h
  obtain ⟨j, o⟩ := p
  cases o with
  | none => simp at hpe
  | some w =>
    simp only [Option.some.injEq] at hpe
    have h2 : j = i ∧ w = v := Prod.mk.inj hpe
    obtain ⟨rfl, rfl⟩ := h2
    exact List.mk_mem_enum_iff_get?.mp hp

/-- Claim C5: every indicator series has an exact warm-up — RSI(14) has no
value before the 14th observation, SMA(20) and both Bollinger bands none
before the 20th (and the first SMA20 value appears exactly at the 20th
point), MACD none before the 26th — and the assembled response never
contains an indicator value at a position where the series is undefined
(missing values are dropped, never synthesized). -/
theorem indicator_warmup (sq : ℚ → ℚ) (closes : List ℚ) (g : Option String) :
    (∀ i o, i < 13 → (rsiSeries closes).get? i = some o → o = none)
    ∧ (∀ i o, i < 19 → (sma20Series closes).get? i = some o → o = none)
    ∧ (∀ i o, i < 19 → (upperBandSeries sq closes).get? i = some o → o = none)
    ∧ (∀ i o, i < 19 → (lowerBandSeries sq closes).get? i = some o → o = none)
    ∧ (∀ i o, i < 25 → (macdSeries closes).get? i = some o → o = none)
    ∧ (20 ≤ closes.length → ∃ v, (sma20Series closes).get? 19 = some (some v))
    ∧ (∀ nm s, (nm, s) ∈ calculate_signals sq closes g →
        ∀ i v, (i, v) ∈ formatSignal s → s.get? i = some (some v)) := by
  refine ⟨?_, ?_, ?_, ?_, ?_, ?_, ?_⟩
  · intro i o hi hg
    rw [rsiSeries, seriesOf_get?] at hg
    by_cases hlen : i < closes.length
    · rw [if_pos hlen] at hg
      rw [← Option.some.inj hg]
      exact rsiAt_warmup_none closes i hi
    · rw [if_neg hlen] at hg; cases hg
  · intro i o hi hg
    rw [sma20Series, seriesOf_get?] at hg
    by_cases hlen : i < closes.length
    · rw [if_pos hlen] at hg
      rw [← Option.some.inj hg]
      exact sma20At_warmup_none closes i hi
    · rw [if_neg hlen] at hg; cases hg
  · intro i o hi hg
    rw [upperBandSeries, seriesOf_get?] at hg
    by_cases hlen : i < closes.length
    · rw [if_pos hlen] at hg
      rw [← Option.some.inj hg]
      exact upperAt_warmup_none sq closes i hi
    · rw [if_neg hlen] at hg; cases hg
  · intro i o hi hg
    rw [lowerBandSeries, seriesOf_get?] at hg
    by_cases hlen : i < closes.length
    · rw [if_pos hlen] at hg
      rw [← Option.some.inj hg]
      exact lowerAt_warmup_none sq closes i hi
    · rw [if_neg hlen] at hg; cases hg
  · intro i o hi hg
    rw [macdSeries, seriesOf_get?] at hg
    by_cases hlen : i < closes.length
    · rw [if_pos hlen] at hg
      rw [← Option.some.inj hg]
      exact macdAt_warmup_none closes i hi
    · rw [if_neg hlen] at hg; cases hg
  · intro hlen
    refine ⟨(((List.range 20).map (fun k =>
      closes.getD (19 + 1 - 20 + k) 0)).sum) / ((20 : ℕ) : ℚ), ?_⟩
    rw [sma20Series, seriesOf_get?, if_pos (by omega)]
    unfold sma20At rollAvg
    rw [if_pos (by omega)]
  · intro nm s _ i v hfv
    exact formatSignal_mem s i v hfv

/-- Witness for C5: on a concrete 20-point close series the SMA(20) has its
first value exactly at the 20th point. -/
theorem indicator_warmup_witness :
    20 ≤ ([1, 2, 3, 4, 5, 6, 7, 8, 9, 10, 11, 12, 13, 14, 15, 16, 17, 18,
      19, 20] : List ℚ).length
    ∧ ∃ v, (sma20Series [1, 2, 3, 4, 5, 6, 7, 8, 9, 10, 11, 12, 13, 14, 15,
      16, 17, 18, 19, 20]).get? 19 = some (some v) :=
  ⟨by decide,
   (indicator_warmup (fun x => x)
     [1, 2, 3, 4, 5, 6, 7, 8, 9, 10, 11, 12, 13, 14, 15, 16, 17, 18, 19, 20]
     none).2.2.2.2.2.1 (by decide)⟩

/-- Helper: the gain series is everywhere non-negative. -/
theorem gainAt_nonneg (closes : List ℚ) (j : ℕ) : 0 ≤ gainAt closes j := by
  unfold gainAt
  cases hd : deltaAt closes j with
  | none => exact le_refl 0
  | some d =>
    dsimp only
    split
    · linarith
    · exact le_refl 0

/-- Helper: on a strictly increasing close series every loss is zero. -/
theorem lossAt_zero (closes : List ℚ) (h : closes.Chain' (· < ·)) (j : ℕ) :
    lossAt closes j = 0 := by
  by_cases hj : j = 0
  · unfold lossAt deltaAt
    rw [if_pos hj]
  · cases hga : closes.get? (j - 1) with
    | none =>
      unfold lossAt deltaAt
      rw [if_neg hj, hga]
    | some a =>
      cases hgb : closes.get? j with
      | none =>
        unfold lossAt deltaAt
        rw [if_neg hj, hga, hgb]
      | some b =>
        have hjl : j < closes.length := by
          by_contra hc
          rw [List.get?_eq_none.mpr (by omega)] at hgb
          cases hgb
        have hab : a < b := by
          have e1 : closes.get? (j - 1)
              = some (closes.get ⟨j - 1, by omega⟩) :=
            List.get?_eq_get (by omega)
          have e2 : closes.get? j = some (closes.get ⟨j, hjl⟩) :=
            List.get?_eq_get hjl
          have ha := Option.some.inj (e1.symm.trans hga)
          have hb := Option.some.inj (e2.symm.trans hgb)
          have hc := List.chain'_iff_get.mp h (j - 1) (by omega)
          have hidx : j - 1 + 1 = j := by omega
          simp only [hidx] at hc
          rw [← ha, ← hb]
          exact hc
        have hd : deltaAt closes j = some (b - a) := by
          unfold deltaAt
          rw [if_neg hj, hga, hgb]
        unfold lossAt
        rw [hd]
        dsimp only
        rw [if_neg (by linarith)]

/-- Helper: on a strictly increasing close series every in-range gain at a
positive index is positive. -/
theorem gainAt_pos (closes : List ℚ) (h : closes.Chain' (· < ·)) (j : ℕ)
    (hj1 : 1 ≤ j) (hjl : j < closes.length) : 0 < gainAt closes j := by
  have e1 : closes.get? (j - 1) = some (closes.get ⟨j - 1, by omega⟩) :=
    List.get?_eq_get (by omega)
  have e2 : closes.get? j = some (closes.get ⟨j, hjl⟩) :=
    List.get?_eq_get hjl
  have hab : closes.get ⟨j - 1, by omega⟩ < closes.get ⟨j, hjl⟩ := by
    have hc := List.chain'_iff_get.mp h (j - 1) (by omega)
    have hidx : j - 1 + 1 = j := by omega
    simp only [hidx] at hc
    exact hc
  have hd : deltaAt closes j
      = some (closes.get ⟨j, hjl⟩ - closes.get ⟨j - 1, by omega⟩) := by
    unfold deltaAt
    rw [if_neg (by omega), e1, e2]
  unfold gainAt
  rw [hd]
  dsimp only
  rw [if_pos (by linarith)]
  linarith

/-- Helper: on a strictly increasing close series the 14-period average loss
is zero wherever it is defined. -/
theorem avgLossAt_zero (closes : List ℚ) (h : closes.Chain' (· < ·)) (i : ℕ)
    (hi : 13 ≤ i) : avgLossAt closes i = some 0 := by
  unfold avgLossAt rollAvg
  rw [if_pos (by omega)]
  have hz : ((List.range 14).map (fun k => lossAt closes (i + 1 - 14 + k))).sum
      = 0 := by
    apply List.sum_eq_zero
    intro x hx
    rw [List.mem_map] at hx
    obtain ⟨k, _, rfl⟩ := hx
    exact lossAt_zero closes h _
  rw [hz]
  norm_num

/-- Helper: on a strictly increasing close series the 14-period average gain
is defined and positive from the warm-up point on. -/
theorem avgGainAt_pos (closes : List ℚ) (h : closes.Chain' (· < ·)) (i : ℕ)
    (hi : 13 ≤ i) (hil : i < closes.length) :
    ∃ gv, avgGainAt closes i = some gv ∧ 0 < gv := by
  have hidx : i + 1 - 14 + 13 = i := by omega
  have hwin : gainAt closes i
      ∈ (List.range 14).map (fun k => gainAt closes (i + 1 - 14 + k)) := by
    refine List.mem_map.mpr ⟨13, by simp, ?_⟩
    rw [hidx]
  have hnn : ∀ x ∈ (List.range 14).map
      (fun k => gainAt closes (i + 1 - 14 + k)), 0 ≤ x := by
    intro x hx
    rw [List.mem_map] at hx
    obtain ⟨k, _, rfl⟩ := hx
    exact gainAt_nonneg closes _
  have hle := List.single_le_sum hnn _ hwin
  have hpos := gainAt_pos closes h i (by omega) hil
  have hsum : 0 < ((List.range 14).map
      (fun k => gainAt closes (i + 1 - 14 + k))).sum := lt_of_lt_of_le hpos hle
  refine ⟨((List.range 14).map
      (fun k => gainAt closes (i + 1 - 14 + k))).sum / ((14 : ℕ) : ℚ), ?_, ?_⟩
  · unfold avgGainAt rollAvg
    rw [if_pos (by omega)]
  · exact div_pos hsum (by norm_num)

/-- Claim C6: wherever RSI(14) is defined with a zero 14-period average
loss its value is 100 (the computation, modelled totally, does not raise);
in particular on a strictly monotonically increasing close series of length
at least 14 every defined RSI point equals 100. -/
theorem rsi_zero_loss_hundred (closes : List ℚ) :
    (∀ i v, avgLossAt closes i = some 0 → rsiAt closes i = some v → v = 100)
    ∧ (closes.Chain' (· < ·) → ∀ i, 13 ≤ i → i < closes.length →
        (rsiSeries closes).get? i = some (some 100)) := by
  constructor
  · intro i v hl hr
    unfold rsiAt at hr
    rw [hl] at hr
    cases hg : avgGainAt closes i with
    | none => rw [hg] at hr; cases hr
    | some ag =>
      rw [hg] at hr
      dsimp only at hr
      rw [if_pos rfl] at hr
      by_cases hag : ag = 0
      · rw [if_pos hag] at hr; cases hr
      · rw [if_neg hag] at hr
        exact (Option.some.inj hr).symm
  · intro hch i hi13 hil
    rw [rsiSeries, seriesOf_get?, if_pos hil]
    obtain ⟨gv, hg, hgpos⟩ := avgGainAt_pos closes hch i hi13 hil
    have hl := avgLossAt_zero closes hch i hi13
    unfold rsiAt
    rw [hg, hl]
    dsimp only
    rw [if_pos rfl, if_neg (ne_of_gt hgpos)]

/-- Witness for C6: a concrete strictly increasing 14-point close series has
RSI exactly 100 at its first defined point. -/
theorem rsi_zero_loss_hundred_witness :
    (rsiSeries [1, 2, 3, 4, 5, 6, 7, 8, 9, 10, 11, 12, 13, 14]).get? 13
      = some (some 100) :=
  (rsi_zero_loss_hundred
      [1, 2, 3, 4, 5, 6, 7, 8, 9, 10, 11, 12, 13, 14]).2
    (by norm_num [List.chain'_cons, List.chain'_singleton]) 13 (by norm_num)
    (by norm_num)

/-- Helper: a nonempty sorted list always has a median. -/
theorem medianOfSorted_ne_none (s : List ℚ) (h : ¬ s.length = 0) :
    ¬ medianOfSorted s = none := by
  unfold medianOfSorted
  rw [if_neg h]
  have hpos : 0 < s.length := Nat.pos_of_ne_zero h
  by_cases hodd : s.length % 2 = 1
  · rw [if_pos hodd]
    have hlt : s.length / 2 < s.length := Nat.div_lt_self hpos (by norm_num)
    cases hg : s.get? (s.length / 2) with
    | none => exact absurd (List.get?_eq_none.mp hg) (by omega)
    | some q => simp
  · rw [if_neg hodd]
    have h2 : 2 ≤ s.length := by omega
    have hlt1 : s.length / 2 - 1 < s.length := by omega
    have hlt2 : s.length / 2 < s.length := Nat.div_lt_self hpos (by norm_num)
    cases hg1 : s.get? (s.length / 2 - 1) with
    | none => exact absurd (List.get?_eq_none.mp hg1) (by omega)
    | some a =>
      cases hg2 : s.get? (s.length / 2) with
      | none => exact absurd (List.get?_eq_none.mp hg2) (by omega)
      | some b => simp

/-- Helper: `statistics.median` over the collected values satisfies the
spec's field contract: absent iff no values, else the middle (or mean of the
two middle) of any sorted rearrangement. -/
theorem safe_median_fieldSpec (vs : List ℚ) : FieldSpec (pyMedian vs) vs := by
  have hperm : (vs.insertionSort (· ≤ ·)).Perm vs :=
    List.perm_insertionSort _ vs
  constructor
  · constructor
    · intro h
      by_contra hne
      have hlen : ¬ (vs.insertionSort (· ≤ ·)).length = 0 := by
        rw [hperm.length_eq]
        exact fun hz => hne (List.length_eq_zero.mp hz)
      exact medianOfSorted_ne_none _ hlen h
    · rintro rfl
      rfl
  · intro s hs hsort
    have h2 : s.Perm (vs.insertionSort (· ≤ ·)) := hs.trans hperm.symm
    have h3 : List.Sorted (· ≤ ·) (vs.insertionSort (· ≤ ·)) :=
      List.sorted_insertionSort _ vs
    have h4 : s = vs.insertionSort (· ≤ ·) :=
      List.eq_of_perm_of_sorted h2 hsort h3
    rw [pyMedian, ← h4]

/-- Helper: the four field lists built by the provider loop are exactly the
field projections of the collected observations, in order. -/
theorem buildLists_eq (outs : List ProviderOutcome) :
    buildLists outs = ((collectObs outs).map (fun d => d.price),
      (collectObs outs).map (fun d => d.market_cap),
      (collectObs outs).map (fun d => d.volume_24h),
      (collectObs outs).map (fun d => d.change_24h)) := by
  induction outs with
  | nil => rfl
  | cons o rest ih => cases o <;> simp [buildLists, collectObs, ih]

/-- Claim C1: for every list of provider outcomes and each of the four
fields independently, the consensus snapshot field equals the median of the
non-absent values contributed for that field (odd count: middle value; even
count: average of the two middle values of any sorted arrangement), and the
field is absent exactly when zero non-absent values were contributed. -/
theorem consensus_median_spec (outs : List ProviderOutcome) :
    FieldSpec (get_realtime_consensus outs).price
      ((collectObs outs).filterMap (fun d => d.price))
    ∧ FieldSpec (get_realtime_consensus outs).market_cap
      ((collectObs outs).filterMap (fun d => d.market_cap))
    ∧ FieldSpec (get_realtime_consensus outs).volume_24h
      ((collectObs outs).filterMap (fun d => d.volume_24h))
    ∧ FieldSpec (get_realtime_consensus outs).change_24h
      ((collectObs outs).filterMap (fun d => d.change_24h)) := by
  have hb := buildLists_eq outs
  have key : ∀ (f : Observation → Option ℚ),
      safe_median ((collectObs outs).map f)
        = pyMedian ((collectObs outs).filterMap f) := by
    intro f
    simp [safe_median, List.filterMap_map]
  refine ⟨?_, ?_, ?_, ?_⟩ <;>
    · simp only [get_realtime_consensus, hb]
      rw [key]
      exact safe_median_fieldSpec _

/-- Witness for C1 at the spec's even-count example: contributed prices
[10, 20] give the consensus price 15 (the average of the two middle
values). -/
theorem consensus_median_spec_witness :
    ([10, 20] : List ℚ).Perm
      ((collectObs [ProviderOutcome.ok ⟨some 10, none, some 1, none⟩,
        ProviderOutcome.raises,
        ProviderOutcome.ok ⟨some 20, some 3, none, some 2⟩]).filterMap
          (fun d => d.price))
    ∧ List.Sorted (· ≤ ·) ([10, 20] : List ℚ)
    ∧ (get_realtime_consensus [ProviderOutcome.ok ⟨some 10, none, some 1, none⟩,
        ProviderOutcome.raises,
        ProviderOutcome.ok ⟨some 20, some 3, none, some 2⟩]).price = some 15 :=
  ⟨by decide, by decide,
   ((consensus_median_spec [ProviderOutcome.ok ⟨some 10, none, some 1, none⟩,
      ProviderOutcome.raises,
      ProviderOutcome.ok ⟨some 20, some 3, none, some 2⟩]).1.2
        [10, 20] (by decide) (by decide)).trans (by norm_num [medianOfSorted])⟩

/-- Helper: a provider none of whose attempts is usable never produces a
result from its retry loop. -/
theorem runAttempts_fst_none (b : ℚ) (p : ℕ) (f : ℕ → FetchOutcome)
    (h : ∀ a, usableO (f a) = false) :
    ∀ n a0, (runAttempts b p f n a0).1 = none := by
  intro n
  induction n with
  | zero => intro a0; rfl
  | succ m ih =>
    intro a0
    have hu := h a0
    cases hfa : f a0 with
    | raise => simp [runAttempts, hfa, ih]
    | ret r =>
      rw [hfa] at hu
      simp only [usableO] at hu
      simp [runAttempts, hfa, hu, ih]

/-- Helper: unfolding one raising attempt — the attempt event is followed by
a backoff sleep of `b * 2 ^ attempt`. -/
theorem runAttempts_succ_raise (b : ℚ) (p : ℕ) (f : ℕ → FetchOutcome)
    (n a0 : ℕ) (hfa : f a0 = FetchOutcome.raise) :
    runAttempts b p f (n + 1) a0
      = ((runAttempts b p f n (a0 + 1)).1,
         Ev.att p a0 :: Ev.slp (b * 2 ^ a0)
           :: (runAttempts b p f n (a0 + 1)).2) := by
  simp [runAttempts, hfa]

/-- Helper: unfolding one usable attempt — the result is accepted and the
loop stops. -/
theorem runAttempts_succ_usable (b : ℚ) (p : ℕ) (f : ℕ → FetchOutcome)
    (n a0 : ℕ) (r : Option FetchResult) (hfa : f a0 = FetchOutcome.ret r)
    (hu : usableR r = true) :
    runAttempts b p f (n + 1) a0 = (r, [Ev.att p a0]) := by
  simp [runAttempts, hfa, hu]

/-- Helper: unfolding one attempt that returns an unusable result — the next
attempt follows immediately, with no sleep. -/
theorem runAttempts_succ_unusable (b : ℚ) (p : ℕ) (f : ℕ → FetchOutcome)
    (n a0 : ℕ) (r : Option FetchResult) (hfa : f a0 = FetchOutcome.ret r)
    (hu : usableR r = false) :
    runAttempts b p f (n + 1) a0
      = ((runAttempts b p f n (a0 + 1)).1,
         Ev.att p a0 :: (runAttempts b p f n (a0 + 1)).2) := by
  simp [runAttempts, hfa, hu]

/-- Helper: a provider whose attempts are never usable is attempted exactly
as many times as the retry budget allows. -/
theorem runAttempts_att_count (b : ℚ) (p : ℕ) (f : ℕ → FetchOutcome)
    (h : ∀ a, usableO (f a) = false) :
    ∀ n a0, (((runAttempts b p f n a0).2).filter isAtt).length = n := by
  intro n
  induction n with
  | zero => intro a0; rfl
  | succ m ih =>
    intro a0
    have hu := h a0
    cases hfa : f a0 with
    | raise =>
      rw [runAttempts_succ_raise b p f m a0 hfa]
      simp [List.filter, isAtt, ih]
    | ret r =>
      rw [hfa] at hu
      simp only [usableO] at hu
      rw [runAttempts_succ_unusable b p f m a0 r hfa hu]
      simp [List.filter, isAtt, ih]

/-- Helper: every attempt event in a provider's retry trace carries that
provider's index. -/
theorem runAttempts_att_provider (b : ℚ) (p : ℕ) (f : ℕ → FetchOutcome) :
    ∀ n a0 q a2, Ev.att q a2 ∈ (runAttempts b p f n a0).2 → q = p := by
  intro n
  induction n with
  | zero => intro a0 q a2 hmem; simp [runAttempts] at hmem
  | succ m ih =>
    intro a0 q a2 hmem
    cases hfa : f a0 with
    | raise =>
      rw [runAttempts_succ_raise b p f m a0 hfa] at hmem
      simp only [List.mem_cons] at hmem
      rcases hmem with h | h | h
      · exact (Ev.att.inj h).1
      · cases h
      · exact ih (a0 + 1) q a2 h
    | ret r =>
      cases hu : usableR r with
      | true =>
        rw [runAttempts_succ_usable b p f m a0 r hfa hu] at hmem
        simp only [List.mem_cons, List.not_mem_nil, or_false] at hmem
        exact (Ev.att.inj hmem).1
      | false =>
        rw [runAttempts_succ_unusable b p f m a0 r hfa hu] at hmem
        simp only [List.mem_cons] at hmem
        rcases hmem with h | h
        · exact (Ev.att.inj h).1
        · exact ih (a0 + 1) q a2 h

/-- Helper: the first event of a retry trace is never a sleep. -/
theorem runAttempts_head_not_slp (b : ℚ) (p : ℕ) (f : ℕ → FetchOutcome)
    (n a0 : ℕ) (d : ℚ) :
    ¬ (runAttempts b p f n a0).2.get? 0 = some (Ev.slp d) := by
  cases n with
  | zero => simp [runAttempts]
  | succ m =>
    cases hfa : f a0 with
    | raise => rw [runAttempts_succ_raise b p f m a0 hfa]; simp
    | ret r =>
      cases hu : usableR r with
      | true => rw [runAttempts_succ_usable b p f m a0 r hfa hu]; simp
      | false => rw [runAttempts_succ_unusable b p f m a0 r hfa hu]; simp

/-- Helper: in a provider's retry trace, an attempt is immediately followed
by the exponential-backoff sleep `b * 2 ^ attempt` exactly when it raised;
an attempt that merely returned an unusable result is never followed by a
sleep. -/
theorem runAttempts_sleep_adj (b : ℚ) (p : ℕ) (f : ℕ → FetchOutcome) :
    ∀ n a0 i a2, (runAttempts b p f n a0).2.get? i = some (Ev.att p a2) →
      (f a2 = FetchOutcome.raise
        ∧ (runAttempts b p f n a0).2.get? (i + 1)
          = some (Ev.slp (b * 2 ^ a2)))
      ∨ (¬ f a2 = FetchOutcome.raise
        ∧ ∀ d, ¬ (runAttempts b p f n a0).2.get? (i + 1)
          = some (Ev.slp d)) := by
  intro n
  induction n with
  | zero => intro a0 i a2 hg; simp [runAttempts] at hg
  | succ m ih =>
    intro a0 i a2 hg
    cases hfa : f a0 with
    | raise =>
      rw [runAttempts_succ_raise b p f m a0 hfa] at hg ⊢
      match i with
      | 0 =>
        simp only [List.get?] at hg
        have h0 := Option.some.inj hg
        injection h0 with h1 h2
        subst h2
        exact Or.inl ⟨hfa, rfl⟩
      | 1 =>
        simp only [List.get?] at hg
        cases hg
      | Nat.succ (Nat.succ k) =>
        simp only [List.get?] at hg ⊢
        exact ih (a0 + 1) k a2 hg
    | ret r =>
      cases hu : usableR r with
      | true =>
        rw [runAttempts_succ_usable b p f m a0 r hfa hu] at hg ⊢
        match i with
        | 0 =>
          simp only [List.get?] at hg
          have h0 := Option.some.inj hg
          injection h0 with h1 h2
          subst h2
          refine Or.inr ⟨by simp [hfa], ?_⟩
          intro d
          simp
        | Nat.succ k =>
          simp only [List.get?, List.get?_nil] at hg
          cases hg
      | false =>
        rw [runAttempts_succ_unusable b p f m a0 r hfa hu] at hg ⊢
        match i with
        | 0 =>
          simp only [List.get?] at hg
          have h0 := Option.some.inj hg
          injection h0 with h1 h2
          subst h2
          refine Or.inr ⟨by simp [hfa], ?_⟩
          intro d
          simp only [List.get?]
          exact runAttempts_head_not_slp b p f m (a0 + 1) d
        | Nat.succ k =>
          simp only [List.get?] at hg ⊢
          exact ih (a0 + 1) k a2 hg

/-- Counterexample to claim C3 as stated: provider 0 fails twice by
returning no usable data (as every provider class in the file does on an
error, its exceptions being self-absorbed), provider 1 succeeds on its
second attempt; with retry count 2 and backoff factor 1/2 the trace shows
provider 0 attempted twice and exhausted first and provider 1's result
returned — but it contains no sleep at all: there is no exponential backoff
between the failed attempts. -/
theorem fallback_no_backoff_counterexample :
    get_market_data_fb
      [fun _ => FetchOutcome.ret none,
       fun a => if a = 1 then FetchOutcome.ret (some ⟨some 5, "P2"⟩)
                else FetchOutcome.ret none] 2 (1 / 2)
    = (some ⟨some 5, "P2"⟩,
       [Ev.att 0 0, Ev.att 0 1, Ev.att 1 0, Ev.att 1 1]) := by
  rfl

/-- Claim C3 (amended): providers are tried in the fixed priority order, an
earlier provider's attempts (exactly the configured retry count) are
exhausted before a later provider is tried, and the first attempt returning
a usable result (a defined price) is accepted and returned; an
exponential-backoff sleep of `base × 2 ^ attempt` follows an attempt exactly
when that attempt raised an exception — attempts that return an unusable
result retry immediately with no backoff. Instantiated at the spec's test:
P1 never usable, P2 usable on its second attempt, retry count ≥ 2. -/
theorem fallback_retry_order (b : ℚ) (N : ℕ) (f1 f2 : ℕ → FetchOutcome)
    (r : FetchResult) (hN : 2 ≤ N)
    (h1 : ∀ a, usableO (f1 a) = false)
    (h20 : f2 0 = FetchOutcome.ret none)
    (h21 : f2 1 = FetchOutcome.ret (some r))
    (hr : r.price.isSome = true) :
    ∃ evs1,
      get_market_data_fb [f1, f2] N b
        = (some r, evs1 ++ [Ev.att 1 0, Ev.att 1 1])
      ∧ (evs1.filter isAtt).length = N
      ∧ (∀ q a2, Ev.att q a2 ∈ evs1 → q = 0)
      ∧ (∀ i a2, evs1.get? i = some (Ev.att 0 a2) →
          (f1 a2 = FetchOutcome.raise
            ∧ evs1.get? (i + 1) = some (Ev.slp (b * 2 ^ a2)))
          ∨ (¬ f1 a2 = FetchOutcome.raise
            ∧ ∀ d, ¬ evs1.get? (i + 1) = some (Ev.slp d))) := by
  obtain ⟨m, rfl⟩ : ∃ m, N = m + 2 := ⟨N - 2, by omega⟩
  have hn1 := runAttempts_fst_none b 0 f1 h1 (m + 2) 0
  have hu1 : usableR (some r) = true := by simp [usableR, hr]
  have hra2 : runAttempts b 1 f2 (m + 2) 0
      = (some r, [Ev.att 1 0, Ev.att 1 1]) := by
    rw [runAttempts_succ_unusable b 1 f2 (m + 1) 0 none h20 rfl]
    rw [runAttempts_succ_usable b 1 f2 m 1 (some r) h21 hu1]
  refine ⟨(runAttempts b 0 f1 (m + 2) 0).2, ?_, ?_, ?_, ?_⟩
  · show runChain b (m + 2) [f1, f2] 0 = _
    simp only [runChain, hn1, hra2]
  · exact runAttempts_att_count b 0 f1 h1 (m + 2) 0
  · exact fun q a2 h => runAttempts_att_provider b 0 f1 (m + 2) 0 q a2 h
  · exact fun i a2 h => runAttempts_sleep_adj b 0 f1 (m + 2) 0 i a2 h

/-- Witness for C3's amended claim at the spec's concrete test: P1 always
raises, P2 succeeds on its second attempt, retry count 2, backoff 1. -/
theorem fallback_retry_order_witness :
    ∃ evs1,
      get_market_data_fb [wP1, wP2] 2 1
        = (some ⟨some 5, "P2"⟩, evs1 ++ [Ev.att 1 0, Ev.att 1 1])
      ∧ (evs1.filter isAtt).length = 2 := by
  obtain ⟨evs1, hmain, hcount, hprov, hadj⟩ :=
    fallback_retry_order 1 2 wP1 wP2 ⟨some 5, "P2"⟩ (le_refl 2)
      (fun a => rfl) rfl rfl rfl
  exact ⟨evs1, hmain, hcount⟩

/-- Counterexample to claim C4 as stated: with the single provider returning
no data and the chain exhausted, `get_market_data` executes `return None` —
the run produces the normal value `None` (modelled `none`; the function body
has no raise path), not a raised `NoDataAvailable`/`DataFetchError`. -/
theorem fallback_exhausted_returns_none :
    get_market_data_fb [fun _ => FetchOutcome.ret none] 1 (1 / 2)
      = (none, [Ev.att 0 0]) := by
  rfl

/-- Claim C4 (amended): when every provider in the chain is exhausted (no
attempt of any provider yields a usable result), `get_market_data` returns
`None` — an absent result distinguishable from every successful dict result
— rather than raising a `NoDataAvailable` error; `DataFetchError` exists in
`utils/exceptions.py` but this path never raises it. -/
theorem fallback_exhausted_result_none (providers : List (ℕ → FetchOutcome))
    (N : ℕ) (b : ℚ)
    (h : ∀ f ∈ providers, ∀ a, usableO (f a) = false) :
    (get_market_data_fb providers N b).1 = none := by
  unfold get_market_data_fb
  generalize 0 = p
  induction providers generalizing p with
  | nil => rfl
  | cons f fs ih =>
    have hf := runAttempts_fst_none b p f
      (h f (List.mem_cons_self _ _)) N 0
    simp only [runChain, hf]
    exact ih (fun g hg => h g (List.mem_cons_of_mem _ hg)) (p + 1)

/-- Witness for C4's amended claim: one always-raising provider, two
attempts — the chain exhausts and the result is `none`. -/
theorem fallback_exhausted_result_none_witness :
    (get_market_data_fb [wP1] 2 1).1 = none :=
  fallback_exhausted_result_none [wP1] 2 1 (by
    intro f hf a
    simp only [List.mem_singleton] at hf
    subst hf
    rfl)
